import Mathlib

/-!
Shallow embedding of the persistence layer of the task-management system:
the `Database` class of src/database.js, the helpers `sanitizeInput`,
`hashPassword`, `verifyPassword` of src/config.js, and the task-creation
route of src/server.js.

Modelling choices:
* The durable JSON file is an `Option (List _)`; `none` models a missing or
  corrupt file (the read throws, or parses to null, and the code degrades
  to the empty collection).
* Success of `fs.writeFileSync` is an explicit `saveOk : Bool` argument; on
  a failed write the file keeps its previous content (writes are modelled
  as atomic full replacements of the file, as the spec assumes).
* The `crypto` primitives are abstracted: the fresh id from `generateId`
  and the `new Date().toISOString()` timestamps are explicit arguments, and
  the SHA-256 digest is an explicit function argument `hashPw`.
* A JS patch object is a record of `Option` fields: `none` models an absent
  key, `some v` a key present with value `v`. The object spread
  `\x7b...task, ...data, updatedAt: now\x7d` of `updateTask` becomes
  `applyPatch`: present keys of `data` override the task fields, and
  `updatedAt` is written last.
* JS results `\x7bsuccess: true, ...\x7d` / `\x7bsuccess: false, message\x7d`
  become `DbResult`.
-/

namespace TaskSystem

structure User where
  id : String
  username : String
  email : String
  password : String
  createdAt : String
  deriving DecidableEq

/-- The redacted user view `\x7bid, username, email\x7d` returned by
`authenticateUser` and `getUserById`: no credential field exists in this type. -/
structure AuthView where
  id : String
  username : String
  email : String
  deriving DecidableEq

structure Task where
  id : String
  userId : String
  title : String
  description : String
  priority : String
  completed : Bool
  createdAt : String
  updatedAt : String
  deriving DecidableEq

/-- A JS patch object for `updateTask`: `none` = key absent. -/
structure TaskPatch where
  id : Option String
  userId : Option String
  title : Option String
  description : Option String
  priority : Option String
  completed : Option Bool
  createdAt : Option String
  updatedAt : Option String
  deriving DecidableEq

def TaskPatch.empty : TaskPatch :=
  { id := none, userId := none, title := none, description := none,
    priority := none, completed := none, createdAt := none, updatedAt := none }

/-- Result of a store operation: `ok` carries the success payload
(`userId` / `taskId` / new completion state / unit), `err` the failure
message string of the JS code. -/
inductive DbResult (α : Type) where
  | ok (value : α)
  | err (message : String)
  deriving DecidableEq

/-- The `success` flag of the JS result object. -/
def DbResult.success {α : Type} : DbResult α → Bool
  | .ok _ => true
  | .err _ => false

/-- JS `String.prototype.trim`: drop whitespace from both ends, modelled on
the ASCII whitespace characters recognised by `Char.isWhitespace`. -/
def jsTrim (s : String) : String :=
  String.mk (((s.toList.dropWhile Char.isWhitespace).reverse.dropWhile
    Char.isWhitespace).reverse)

/-- src/config.js `sanitizeInput`: trim, then delete every occurrence of
the characters `<` and `>`. -/
def sanitizeInput (data : String) : String :=
  String.mk ((jsTrim data).toList.filter (fun c => !(c == '<' || c == '>')))

/-- src/config.js `verifyPassword`: recompute the digest and compare. -/
def verifyPassword (hashPw : String → String) (password hash : String) : Bool :=
  hashPw password == hash

/-- src/database.js `getUsers`: read failure degrades to the empty list. -/
def getUsers (disk : Option (List User)) : List User :=
  disk.getD []

/-- src/database.js `createUser`. -/
def createUser (hashPw : String → String) (disk : Option (List User)) (saveOk : Bool)
    (username email password newId now : String) :
    DbResult String × Option (List User) :=
  let users := getUsers disk
  match users.find? (fun user => user.username == username || user.email == email) with
  | some _ => (.err "Usuário ou email já existe", disk)
  | none =>
    let newUser : User :=
      { id := newId, username := username, email := email,
        password := hashPw password, createdAt := now }
    if saveOk then (.ok newUser.id, some (users ++ [newUser]))
    else (.err "Erro ao criar usuário", disk)

/-- src/database.js `authenticateUser`. -/
def authenticateUser (hashPw : String → String) (disk : Option (List User))
    (username password : String) : DbResult AuthView :=
  match (getUsers disk).find? (fun user =>
      (user.username == username || user.email == username) &&
      verifyPassword hashPw password user.password) with
  | some user => .ok { id := user.id, username := user.username, email := user.email }
  | none => .err "Usuário ou senha incorretos"

/-- src/database.js `getUserById`. -/
def getUserById (disk : Option (List User)) (userId : String) : Option AuthView :=
  match (getUsers disk).find? (fun user => user.id == userId) with
  | some user => some { id := user.id, username := user.username, email := user.email }
  | none => none

/-- src/database.js `getTasks`: read failure degrades to the empty list;
the JS guard `if (userId)` is falsy for both null and the empty string. -/
def getTasks (disk : Option (List Task)) (userId : Option String) : List Task :=
  match disk with
  | none => []
  | some allTasks =>
    match userId with
    | some u => if u.isEmpty then allTasks else allTasks.filter (fun task => task.userId == u)
    | none => allTasks

/-- src/database.js `createTask`; the JS default parameters
`description = ''` and `priority = 'medium'` apply when the argument is
absent (`none`). -/
def createTask (disk : Option (List Task)) (saveOk : Bool) (userId title : String)
    (description : Option String) (priority : Option String) (newId now : String) :
    DbResult String × Option (List Task) :=
  let tasks := getTasks disk none
  let newTask : Task :=
    { id := newId, userId := userId, title := title,
      description := description.getD "", priority := priority.getD "medium",
      completed := false, createdAt := now, updatedAt := now }
  if saveOk then (.ok newTask.id, some (tasks ++ [newTask]))
  else (.err "Erro ao criar tarefa", disk)

/-- The object spread of src/database.js `updateTask`: every key present in
`data` overrides the task field, then `updatedAt` is set to `now`. -/
def applyPatch (task : Task) (data : TaskPatch) (now : String) : Task :=
  { id := data.id.getD task.id
    userId := data.userId.getD task.userId
    title := data.title.getD task.title
    description := data.description.getD task.description
    priority := data.priority.getD task.priority
    completed := data.completed.getD task.completed
    createdAt := data.createdAt.getD task.createdAt
    updatedAt := now }

/-- `findIndex` on `task.id === taskId && task.userId === userId` followed by
in-place replacement of the first hit, rendered as structural recursion. -/
def updateInList (tasks : List Task) (taskId userId : String) (data : TaskPatch)
    (now : String) : Option (List Task) :=
  match tasks with
  | [] => none
  | task :: rest =>
    if task.id == taskId && task.userId == userId then
      some (applyPatch task data now :: rest)
    else
      match updateInList rest taskId userId data now with
      | some rest' => some (task :: rest')
      | none => none

/-- src/database.js `updateTask`. -/
def updateTask (disk : Option (List Task)) (saveOk : Bool) (taskId userId : String)
    (data : TaskPatch) (now : String) : DbResult Unit × Option (List Task) :=
  match updateInList (getTasks disk none) taskId userId data now with
  | none => (.err "Tarefa não encontrada", disk)
  | some tasks' =>
    if saveOk then (.ok (), some tasks') else (.err "Erro ao atualizar tarefa", disk)

/-- `findIndex` followed by `splice(taskIndex, 1)`: remove the first hit. -/
def deleteInList (tasks : List Task) (taskId userId : String) : Option (List Task) :=
  match tasks with
  | [] => none
  | task :: rest =>
    if task.id == taskId && task.userId == userId then some rest
    else
      match deleteInList rest taskId userId with
      | some rest' => some (task :: rest')
      | none => none

/-- src/database.js `deleteTask`. -/
def deleteTask (disk : Option (List Task)) (saveOk : Bool) (taskId userId : String) :
    DbResult Unit × Option (List Task) :=
  match deleteInList (getTasks disk none) taskId userId with
  | none => (.err "Tarefa não encontrada", disk)
  | some tasks' =>
    if saveOk then (.ok (), some tasks') else (.err "Erro ao excluir tarefa", disk)

/-- `findIndex` followed by in-place negation of `completed` and refresh of
`updatedAt` on the first hit; also returns the new `completed` value. -/
def toggleInList (tasks : List Task) (taskId userId now : String) :
    Option (Bool × List Task) :=
  match tasks with
  | [] => none
  | task :: rest =>
    if task.id == taskId && task.userId == userId then
      some (!task.completed,
        { task with completed := !task.completed, updatedAt := now } :: rest)
    else
      match toggleInList rest taskId userId now with
      | some (c, rest') => some (c, task :: rest')
      | none => none

/-- src/database.js `toggleTaskCompletion`. -/
def toggleTaskCompletion (disk : Option (List Task)) (saveOk : Bool)
    (taskId userId now : String) : DbResult Bool × Option (List Task) :=
  match toggleInList (getTasks disk none) taskId userId now with
  | none => (.err "Tarefa não encontrada", disk)
  | some (c, tasks') =>
    if saveOk then (.ok c, some tasks') else (.err "Erro ao atualizar tarefa", disk)

structure ByPriority where
  high : Nat
  medium : Nat
  low : Nat
  deriving DecidableEq

structure TaskStats where
  total : Nat
  completed : Nat
  pending : Nat
  byPriority : ByPriority
  deriving DecidableEq

/-- src/database.js `getTaskStats`. -/
def getTaskStats (disk : Option (List Task)) (userId : String) : TaskStats :=
  let tasks := getTasks disk (some userId)
  let total := tasks.length
  let completed := (tasks.filter (fun task => task.completed)).length
  let pending := total - completed
  { total := total, completed := completed, pending := pending,
    byPriority :=
      { high := (tasks.filter (fun task => !task.completed && task.priority == "high")).length,
        medium := (tasks.filter (fun task => !task.completed && task.priority == "medium")).length,
        low := (tasks.filter (fun task => !task.completed && task.priority == "low")).length } }

/-- The POST /api/tasks handler of src/server.js: rejects a falsy `title`
(absent or empty string), then calls `createTask` on the sanitized inputs,
substituting defaults for falsy `description` and `priority`. -/
def postTask (disk : Option (List Task)) (saveOk : Bool) (userId : String)
    (title description priority : Option String) (newId now : String) :
    DbResult String × Option (List Task) :=
  if (title.getD "").isEmpty then (.err "O título da tarefa é obrigatório.", disk)
  else
    createTask disk saveOk userId (sanitizeInput (title.getD ""))
      (some (sanitizeInput (description.getD "")))
      (some (sanitizeInput (if (priority.getD "").isEmpty then "medium" else priority.getD "")))
      newId now

/-- User-store states reachable from the initial empty file by successful
`createUser` calls. -/
inductive ReachableUsers (hashPw : String → String) : Option (List User) → Prop where
  | init : ReachableUsers hashPw (some [])
  | step {d d' : Option (List User)} {saveOk : Bool}
      {username email password newId now userId : String}
      (h : ReachableUsers hashPw d)
      (hcall : createUser hashPw d saveOk username email password newId now = (.ok userId, d')) :
      ReachableUsers hashPw d'

/-! Helper lemmas about the first-match list operations. -/

theorem updateInList_eq_none {tasks : List Task} {taskId userId : String}
    (data : TaskPatch) (now : String)
    (h : ∀ x ∈ tasks, (x.id == taskId && x.userId == userId) = false) :
    updateInList tasks taskId userId data now = none := by
  induction tasks with
  | nil => rfl
  | cons t rest ih =>
    have ht := h t (List.mem_cons_self t rest)
    have hr := ih (fun x hx => h x (List.mem_cons_of_mem t hx))
    simp [updateInList, ht, hr]

theorem deleteInList_eq_none {tasks : List Task} {taskId userId : String}
    (h : ∀ x ∈ tasks, (x.id == taskId && x.userId == userId) = false) :
    deleteInList tasks taskId userId = none := by
  induction tasks with
  | nil => rfl
  | cons t rest ih =>
    have ht := h t (List.mem_cons_self t rest)
    have hr := ih (fun x hx => h x (List.mem_cons_of_mem t hx))
    simp [deleteInList, ht, hr]

theorem toggleInList_eq_none {tasks : List Task} {taskId userId : String}
    (now : String)
    (h : ∀ x ∈ tasks, (x.id == taskId && x.userId == userId) = false) :
    toggleInList tasks taskId userId now = none := by
  induction tasks with
  | nil => rfl
  | cons t rest ih =>
    have ht := h t (List.mem_cons_self t rest)
    have hr := ih (fun x hx => h x (List.mem_cons_of_mem t hx))
    simp [toggleInList, ht, hr]

theorem updateInList_first_match {pre suf : List Task} {t : Task}
    {taskId userId : String} (data : TaskPatch) (now : String)
    (hpre : ∀ x ∈ pre, (x.id == taskId && x.userId == userId) = false)
    (ht : (t.id == taskId && t.userId == userId) = true) :
    updateInList (pre ++ t :: suf) taskId userId data now
      = some (pre ++ applyPatch t data now :: suf) := by
  induction pre with
  | nil => simp [updateInList, ht]
  | cons p ps ih =>
    have hp := hpre p (List.mem_cons_self p ps)
    have hr := ih (fun x hx => hpre x (List.mem_cons_of_mem p hx))
    simp [updateInList, hp, hr]

theorem deleteInList_first_match {pre suf : List Task} {t : Task}
    {taskId userId : String}
    (hpre : ∀ x ∈ pre, (x.id == taskId && x.userId == userId) = false)
    (ht : (t.id == taskId && t.userId == userId) = true) :
    deleteInList (pre ++ t :: suf) taskId userId = some (pre ++ suf) := by
  induction pre with
  | nil => simp [deleteInList, ht]
  | cons p ps ih =>
    have hp := hpre p (List.mem_cons_self p ps)
    have hr := ih (fun x hx => hpre x (List.mem_cons_of_mem p hx))
    simp [deleteInList, hp, hr]

theorem toggleInList_first_match {pre suf : List Task} {t : Task}
    {taskId userId : String} (now : String)
    (hpre : ∀ x ∈ pre, (x.id == taskId && x.userId == userId) = false)
    (ht : (t.id == taskId && t.userId == userId) = true) :
    toggleInList (pre ++ t :: suf) taskId userId now
      = some (!t.completed,
          pre ++ { t with completed := !t.completed, updatedAt := now } :: suf) := by
  induction pre with
  | nil => simp [toggleInList, ht]
  | cons p ps ih =>
    have hp := hpre p (List.mem_cons_self p ps)
    have hr := ih (fun x hx => hpre x (List.mem_cons_of_mem p hx))
    simp [toggleInList, hp, hr]

theorem updateInList_eq_some {tasks tasks' : List Task} {taskId userId : String}
    {data : TaskPatch} {now : String}
    (h : updateInList tasks taskId userId data now = some tasks') :
    ∃ pre t suf, tasks = pre ++ t :: suf ∧
      (∀ x ∈ pre, (x.id == taskId && x.userId == userId) = false) ∧
      (t.id == taskId && t.userId == userId) = true ∧
      tasks' = pre ++ applyPatch t data now :: suf := by
  induction tasks generalizing tasks' with
  | nil => simp [updateInList] at h
  | cons t rest ih =>
    by_cases hc : (t.id == taskId && t.userId == userId) = true
    · refine ⟨[], t, rest, rfl, by simp, hc, ?_⟩
      simp [updateInList, hc] at h
      simp [← h]
    · have hc' : (t.id == taskId && t.userId == userId) = false :=
        Bool.not_eq_true _ ▸ eq_false_of_ne_true hc
      simp only [updateInList, hc', Bool.false_eq_true, if_false] at h
      cases hrec : updateInList rest taskId userId data now with
      | none => rw [hrec] at h; simp at h
      | some rest' =>
        rw [hrec] at h
        simp only [Option.some.injEq] at h
        obtain ⟨pre, u, suf, h1, h2, h3, h4⟩ := ih hrec
        refine ⟨t :: pre, u, suf, by simp [h1], ?_, h3, by simp [← h, h4]⟩
        intro x hx
        rcases List.mem_cons.mp hx with rfl | hx
        · exact hc'
        · exact h2 x hx

theorem deleteInList_eq_some {tasks tasks' : List Task} {taskId userId : String}
    (h : deleteInList tasks taskId userId = some tasks') :
    ∃ pre t suf, tasks = pre ++ t :: suf ∧
      (∀ x ∈ pre, (x.id == taskId && x.userId == userId) = false) ∧
      (t.id == taskId && t.userId == userId) = true ∧
      tasks' = pre ++ suf := by
  induction tasks generalizing tasks' with
  | nil => simp [deleteInList] at h
  | cons t rest ih =>
    by_cases hc : (t.id == taskId && t.userId == userId) = true
    · refine ⟨[], t, rest, rfl, by simp, hc, ?_⟩
      simp [deleteInList, hc] at h
      simp [← h]
    · have hc' : (t.id == taskId && t.userId == userId) = false :=
        Bool.not_eq_true _ ▸ eq_false_of_ne_true hc
      simp only [deleteInList, hc', Bool.false_eq_true, if_false] at h
      cases hrec : deleteInList rest taskId userId with
      | none => rw [hrec] at h; simp at h
      | some rest' =>
        rw [hrec] at h
        simp only [Option.some.injEq] at h
        obtain ⟨pre, u, suf, h1, h2, h3, h4⟩ := ih hrec
        refine ⟨t :: pre, u, suf, by simp [h1], ?_, h3, by simp [← h, h4]⟩
        intro x hx
        rcases List.mem_cons.mp hx with rfl | hx
        · exact hc'
        · exact h2 x hx

theorem toggleInList_eq_some {tasks tasks' : List Task} {c : Bool}
    {taskId userId now : String}
    (h : toggleInList tasks taskId userId now = some (c, tasks')) :
    ∃ pre t suf, tasks = pre ++ t :: suf ∧
      (∀ x ∈ pre, (x.id == taskId && x.userId == userId) = false) ∧
      (t.id == taskId && t.userId == userId) = true ∧
      c = !t.completed ∧
      tasks' = pre ++ { t with completed := !t.completed, updatedAt := now } :: suf := by
  induction tasks generalizing tasks' c with
  | nil => simp [toggleInList] at h
  | cons t rest ih =>
    by_cases hc : (t.id == taskId && t.userId == userId) = true
    · simp [toggleInList, hc] at h
      exact ⟨[], t, rest, rfl, by simp, hc, by rw [h.1, Bool.not_not], by simp [← h.2]⟩
    · have hc' : (t.id == taskId && t.userId == userId) = false :=
        Bool.not_eq_true _ ▸ eq_false_of_ne_true hc
      simp only [toggleInList, hc', Bool.false_eq_true, if_false] at h
      cases hrec : toggleInList rest taskId userId now with
      | none => rw [hrec] at h; simp at h
      | some p =>
        rw [hrec] at h
        cases p with
        | mk c0 rest' =>
          simp only [Option.some.injEq, Prod.mk.injEq] at h
          obtain ⟨pre, u, suf, h1, h2, h3, h4, h5⟩ := ih hrec
          refine ⟨t :: pre, u, suf, by simp [h1], ?_, h3, h.1 ▸ h4, by simp [← h.2, h5]⟩
          intro x hx
          rcases List.mem_cons.mp hx with rfl | hx
          · exact hc'
          · exact h2 x hx

theorem task_contribution_le_one (t : Task) :
    (if !t.completed && t.priority == "high" then 1 else 0) +
    (if !t.completed && t.priority == "medium" then 1 else 0) +
    (if !t.completed && t.priority == "low" then 1 else 0) +
    (if t.completed then 1 else 0) ≤ 1 := by
  by_cases hc : t.completed
  · simp [hc]
  · have hc' : t.completed = false := by simpa using hc
    by_cases hh : t.priority = "high"
    · simp [hc', hh]
    · by_cases hm : t.priority = "medium"
      · simp [hc', hm]
      · by_cases hl : t.priority = "low"
        · simp [hc', hl]
        · simp [hc', hh, hm, hl]

theorem sum_priority_add_completed_le (l : List Task) :
    l.countP (fun t => !t.completed && t.priority == "high") +
    l.countP (fun t => !t.completed && t.priority == "medium") +
    l.countP (fun t => !t.completed && t.priority == "low") +
    l.countP (fun t => t.completed) ≤ l.length := by
  induction l with
  | nil => simp
  | cons t rest ih =>
    simp only [List.countP_cons, List.length_cons]
    have := task_contribution_le_one t
    omega

/-- C6: for every user and task collection, `stats` satisfies
`total = completed + pending`, each `byPriority` count is the number of the
user's incomplete tasks of that priority (completed tasks never counted),
and the `byPriority` counts sum to at most `pending`. -/
theorem stats_consistent (disk : Option (List Task)) (userId : String) :
    (getTaskStats disk userId).total
      = (getTaskStats disk userId).completed + (getTaskStats disk userId).pending ∧
    (getTaskStats disk userId).byPriority.high
      = (getTasks disk (some userId)).countP (fun t => !t.completed && t.priority == "high") ∧
    (getTaskStats disk userId).byPriority.medium
      = (getTasks disk (some userId)).countP (fun t => !t.completed && t.priority == "medium") ∧
    (getTaskStats disk userId).byPriority.low
      = (getTasks disk (some userId)).countP (fun t => !t.completed && t.priority == "low") ∧
    (getTaskStats disk userId).byPriority.high + (getTaskStats disk userId).byPriority.medium
        + (getTaskStats disk userId).byPriority.low
      ≤ (getTaskStats disk userId).pending := by
  have hcomp := List.length_filter_le (fun task => task.completed) (getTasks disk (some userId))
  have hsum := sum_priority_add_completed_le (getTasks disk (some userId))
  simp only [List.countP_eq_length_filter] at hsum
  refine ⟨?_, ?_, ?_, ?_, ?_⟩ <;>
    simp only [getTaskStats, List.countP_eq_length_filter] <;> omega

/-- C7: a failed durable read makes every read operation behave as if the
collection were empty, and a failed durable write makes every mutating
operation return a failure result with the durable state unchanged — a
write failure is never reported as success. -/
theorem persistence_failure_policy (hashPw : String → String)
    (uDisk : Option (List User)) (tDisk : Option (List Task)) (flt : Option String)
    (username email pw newId now uid title tid : String)
    (descr prio : Option String) (data : TaskPatch) :
    getUsers none = [] ∧
    getTasks none flt = [] ∧
    getTaskStats none uid
      = { total := 0, completed := 0, pending := 0,
          byPriority := { high := 0, medium := 0, low := 0 } } ∧
    authenticateUser hashPw none username pw = .err "Usuário ou senha incorretos" ∧
    getUserById none uid = none ∧
    ((createUser hashPw uDisk false username email pw newId now).1.success = false ∧
      (createUser hashPw uDisk false username email pw newId now).2 = uDisk) ∧
    ((createTask tDisk false uid title descr prio newId now).1.success = false ∧
      (createTask tDisk false uid title descr prio newId now).2 = tDisk) ∧
    ((updateTask tDisk false tid uid data now).1.success = false ∧
      (updateTask tDisk false tid uid data now).2 = tDisk) ∧
    ((deleteTask tDisk false tid uid).1.success = false ∧
      (deleteTask tDisk false tid uid).2 = tDisk) ∧
    ((toggleTaskCompletion tDisk false tid uid now).1.success = false ∧
      (toggleTaskCompletion tDisk false tid uid now).2 = tDisk) := by
  refine ⟨rfl, rfl, rfl, rfl, rfl, ?_, ?_, ?_, ?_, ?_⟩
  · constructor <;> (simp only [createUser]; split <;> simp [DbResult.success])
  · constructor <;> simp [createTask, DbResult.success]
  · constructor <;> (simp only [updateTask]; split <;> simp [DbResult.success])
  · constructor <;> (simp only [deleteTask]; split <;> simp [DbResult.success])
  · constructor <;> (simp only [toggleTaskCompletion]; split <;> simp [DbResult.success])

theorem createUser_ok_inv {hashPw : String → String} {d d' : Option (List User)}
    {saveOk : Bool} {username email password newId now userId : String}
    (hcall : createUser hashPw d saveOk username email password newId now = (.ok userId, d')) :
    saveOk = true ∧ userId = newId ∧
    (∀ u ∈ getUsers d, (u.username == username || u.email == email) = false) ∧
    d' = some (getUsers d ++
      [{ id := newId, username := username, email := email,
         password := hashPw password, createdAt := now }]) := by
  simp only [createUser] at hcall
  cases hfind : (getUsers d).find?
      (fun user => user.username == username || user.email == email) with
  | some u => rw [hfind] at hcall; simp at hcall
  | none =>
    rw [hfind] at hcall
    cases saveOk with
    | false => simp at hcall
    | true =>
      simp only [if_true, Prod.mk.injEq, DbResult.ok.injEq] at hcall
      refine ⟨rfl, hcall.1.symm, ?_, hcall.2.symm⟩
      intro u hu
      have := List.find?_eq_none.mp hfind u hu
      simpa using this

theorem reachable_users_pairwise {hashPw : String → String} {d : Option (List User)}
    (h : ReachableUsers hashPw d) :
    (getUsers d).Pairwise (fun u v => u.username ≠ v.username ∧ u.email ≠ v.email) := by
  induction h with
  | init => simp [getUsers]
  | step h hcall ih =>
    obtain ⟨-, -, hforall, hd'⟩ := createUser_ok_inv hcall
    rw [hd']
    simp only [getUsers, Option.getD_some]
    rw [List.pairwise_append]
    refine ⟨ih, by simp, ?_⟩
    intro a ha b hb
    rw [List.mem_singleton] at hb
    subst hb
    have := hforall a ha
    simp only [Bool.or_eq_false_iff, beq_eq_false_iff_ne] at this
    exact ⟨this.1, this.2⟩

/-- C3: in every user-store state reachable by successful `createUser` calls
no two records share a username or an email (case-sensitive), and a
`createUser` call whose username or email equals an existing record's
returns the conflict failure and leaves the store unchanged. -/
theorem user_uniqueness (hashPw : String → String) (d : Option (List User))
    (h : ReachableUsers hashPw d) :
    (getUsers d).Pairwise (fun u v => u.username ≠ v.username ∧ u.email ≠ v.email) ∧
    (∀ saveOk username email password newId now,
      (∃ u ∈ getUsers d, u.username = username ∨ u.email = email) →
        createUser hashPw d saveOk username email password newId now
          = (.err "Usuário ou email já existe", d)) := by
  refine ⟨reachable_users_pairwise h, ?_⟩
  intro saveOk username email password newId now hex
  obtain ⟨u, hu, hcol⟩ := hex
  have hsome : ((getUsers d).find?
      (fun user => user.username == username || user.email == email)).isSome := by
    rw [List.find?_isSome]
    exact ⟨u, hu, by rcases hcol with h1 | h1 <;> simp [h1]⟩
  simp only [createUser]
  cases hfind : (getUsers d).find?
      (fun user => user.username == username || user.email == email) with
  | none => rw [hfind] at hsome; simp at hsome
  | some w => rfl

theorem user_uniqueness_witness :
    (getUsers (some [(⟨"id1", "alice", "a@x.com", "Hpw1", "t0"⟩ : User)])).Pairwise
      (fun u v => u.username ≠ v.username ∧ u.email ≠ v.email) ∧
    (∀ saveOk username email password newId now,
      (∃ u ∈ getUsers (some [(⟨"id1", "alice", "a@x.com", "Hpw1", "t0"⟩ : User)]),
          u.username = username ∨ u.email = email) →
        createUser (fun s => String.append "H" s)
            (some [⟨"id1", "alice", "a@x.com", "Hpw1", "t0"⟩])
            saveOk username email password newId now
          = (.err "Usuário ou email já existe",
             some [⟨"id1", "alice", "a@x.com", "Hpw1", "t0"⟩])) :=
  user_uniqueness (fun s => String.append "H" s)
    (some [⟨"id1", "alice", "a@x.com", "Hpw1", "t0"⟩])
    (@ReachableUsers.step (fun s => String.append "H" s) (some [])
      (some [⟨"id1", "alice", "a@x.com", "Hpw1", "t0"⟩]) true
      "alice" "a@x.com" "pw1" "id1" "t0" "id1" ReachableUsers.init (by decide))

/-- C1: for a task T owned by user A in a collection with pairwise distinct
task ids, `updateTask`, `deleteTask` and `toggleTaskCompletion` called with a
different user id B and T's id return the not-found failure and leave the
whole collection exactly as it was. -/
theorem ownership_isolation (tasks : List Task) (T : Task) (B : String)
    (data : TaskPatch) (now : String) (saveOk : Bool)
    (hT : T ∈ tasks)
    (hnodup : (tasks.map Task.id).Nodup)
    (hB : B ≠ T.userId) :
    updateTask (some tasks) saveOk T.id B data now
      = (.err "Tarefa não encontrada", some tasks) ∧
    deleteTask (some tasks) saveOk T.id B
      = (.err "Tarefa não encontrada", some tasks) ∧
    toggleTaskCompletion (some tasks) saveOk T.id B now
      = (.err "Tarefa não encontrada", some tasks) := by
  have hall : ∀ x ∈ tasks, (x.id == T.id && x.userId == B) = false := by
    intro x hx
    by_cases hid : x.id = T.id
    · have hxT : x = T := List.inj_on_of_nodup_map hnodup hx hT hid
      subst hxT
      simp only [Bool.and_eq_false_iff]
      exact Or.inr (by simpa using fun h => hB h.symm)
    · simp only [Bool.and_eq_false_iff]
      exact Or.inl (by simpa using hid)
  refine ⟨?_, ?_, ?_⟩
  · simp only [updateTask, getTasks]
    rw [updateInList_eq_none data now hall]
  · simp only [deleteTask, getTasks]
    rw [deleteInList_eq_none hall]
  · simp only [toggleTaskCompletion, getTasks]
    rw [toggleInList_eq_none now hall]

theorem ownership_isolation_witness :
    updateTask (some [(⟨"t1", "A", "x", "", "medium", false, "c0", "c0"⟩ : Task)])
        true "t1" "B" TaskPatch.empty "n1"
      = (.err "Tarefa não encontrada",
         some [(⟨"t1", "A", "x", "", "medium", false, "c0", "c0"⟩ : Task)]) ∧
    deleteTask (some [(⟨"t1", "A", "x", "", "medium", false, "c0", "c0"⟩ : Task)])
        true "t1" "B"
      = (.err "Tarefa não encontrada",
         some [(⟨"t1", "A", "x", "", "medium", false, "c0", "c0"⟩ : Task)]) ∧
    toggleTaskCompletion (some [(⟨"t1", "A", "x", "", "medium", false, "c0", "c0"⟩ : Task)])
        true "t1" "B" "n1"
      = (.err "Tarefa não encontrada",
         some [(⟨"t1", "A", "x", "", "medium", false, "c0", "c0"⟩ : Task)]) :=
  ownership_isolation [⟨"t1", "A", "x", "", "medium", false, "c0", "c0"⟩]
    ⟨"t1", "A", "x", "", "medium", false, "c0", "c0"⟩ "B" TaskPatch.empty "n1" true
    (by decide) (by decide) (by decide)

/-- C9: one successful toggle flips `completed` and returns the new value;
a second successful toggle on the same task returns the original value and
restores the record up to its `updatedAt` timestamp. -/
theorem toggle_pair (pre suf : List Task) (t : Task) (tid uid now now' : String)
    (hpre : ∀ x ∈ pre, (x.id == tid && x.userId == uid) = false)
    (hid : t.id = tid) (huid : t.userId = uid) :
    toggleTaskCompletion (some (pre ++ t :: suf)) true tid uid now
      = (.ok (!t.completed),
         some (pre ++ { t with completed := !t.completed, updatedAt := now } :: suf)) ∧
    toggleTaskCompletion
        (some (pre ++ { t with completed := !t.completed, updatedAt := now } :: suf))
        true tid uid now'
      = (.ok t.completed, some (pre ++ { t with updatedAt := now' } :: suf)) := by
  have ht : (t.id == tid && t.userId == uid) = true := by simp [hid, huid]
  have ht2 : (({ t with completed := !t.completed, updatedAt := now } : Task).id == tid &&
      ({ t with completed := !t.completed, updatedAt := now } : Task).userId == uid) = true := by
    simp [hid, huid]
  constructor
  · simp only [toggleTaskCompletion, getTasks]
    rw [toggleInList_first_match now hpre ht]
    simp
  · simp only [toggleTaskCompletion, getTasks]
    rw [toggleInList_first_match now' hpre ht2]
    simp

theorem toggle_pair_witness :
    toggleTaskCompletion
        (some [(⟨"t0", "A", "y", "", "low", false, "c0", "c0"⟩ : Task),
               (⟨"t1", "A", "x", "", "medium", false, "c0", "c0"⟩ : Task)])
        true "t1" "A" "n1"
      = (.ok true,
         some [(⟨"t0", "A", "y", "", "low", false, "c0", "c0"⟩ : Task),
               (⟨"t1", "A", "x", "", "medium", true, "c0", "n1"⟩ : Task)]) ∧
    toggleTaskCompletion
        (some [(⟨"t0", "A", "y", "", "low", false, "c0", "c0"⟩ : Task),
               (⟨"t1", "A", "x", "", "medium", true, "c0", "n1"⟩ : Task)])
        true "t1" "A" "n2"
      = (.ok false,
         some [(⟨"t0", "A", "y", "", "low", false, "c0", "c0"⟩ : Task),
               (⟨"t1", "A", "x", "", "medium", false, "c0", "n2"⟩ : Task)]) :=
  toggle_pair [⟨"t0", "A", "y", "", "low", false, "c0", "c0"⟩] []
    ⟨"t1", "A", "x", "", "medium", false, "c0", "c0"⟩ "t1" "A" "n1" "n2"
    (by decide) rfl rfl

/-- C2 counterexample: a title consisting of a single space is non-empty for
the route guard yet sanitizes to the empty string, and the creation succeeds,
appending a task whose stored title is empty. -/
theorem whitespace_title_accepted :
    sanitizeInput " " = "" ∧
    postTask (some []) true "u1" (some " ") none none "id1" "t0"
      = (.ok "id1", some [⟨"id1", "u1", "", "", "medium", false, "t0", "t0"⟩]) := by
  exact ⟨by decide, by decide⟩

/-- C2 amended: the creation pipeline rejects only a missing title or the
literally empty title string (checked before sanitization), failing and
leaving the collection unchanged; the store itself performs no title
validation, so a non-empty title that sanitizes to empty is accepted. -/
theorem post_empty_title_rejected (disk : Option (List Task)) (saveOk : Bool)
    (userId : String) (title description priority : Option String) (newId now : String)
    (h : title = none ∨ title = some "") :
    postTask disk saveOk userId title description priority newId now
      = (.err "O título da tarefa é obrigatório.", disk) := by
  rcases h with rfl | rfl <;> rfl

theorem post_empty_title_rejected_witness :
    postTask (some []) true "u1" (some "") none none "id1" "t0"
      = (.err "O título da tarefa é obrigatório.", some []) :=
  post_empty_title_rejected (some []) true "u1" (some "") none none "id1" "t0" (Or.inr rfl)

/-- C8 counterexample: `createTask` stores an arbitrary caller-supplied
priority string verbatim; "urgent" is recorded although it is none of
low, medium, high. -/
theorem arbitrary_priority_stored :
    (createTask (some []) true "u1" "Task" none (some "urgent") "id1" "t0").2
      = some [⟨"id1", "u1", "Task", "", "urgent", false, "t0", "t0"⟩] ∧
    ¬(("urgent" : String) = "low" ∨ ("urgent" : String) = "medium" ∨
      ("urgent" : String) = "high") := by
  exact ⟨by decide, by decide⟩

/-- C8 amended: when no priority is supplied, `createTask` defaults it to
"medium"; when a priority string is supplied, it is stored verbatim with no
validation against low, medium, high. -/
theorem priority_default_and_passthrough (disk : Option (List Task))
    (userId title : String) (descr : Option String) (newId now : String) :
    ((createTask disk true userId title descr none newId now).2
      = some (getTasks disk none ++
          [{ id := newId, userId := userId, title := title,
             description := descr.getD "", priority := "medium",
             completed := false, createdAt := now, updatedAt := now }])) ∧
    (∀ p : String, (createTask disk true userId title descr (some p) newId now).2
      = some (getTasks disk none ++
          [{ id := newId, userId := userId, title := title,
             description := descr.getD "", priority := p,
             completed := false, createdAt := now, updatedAt := now }])) :=
  ⟨rfl, fun _ => rfl⟩

/-- C4 counterexample: a patch object that itself contains a `userId` key
changes the owner of the task on a successful update. -/
theorem update_patch_overwrites_owner :
    updateTask (some [(⟨"t1", "A", "x", "", "medium", false, "c0", "c0"⟩ : Task)])
        true "t1" "A"
        { id := none, userId := some "B", title := none, description := none,
          priority := none, completed := none, createdAt := none, updatedAt := none } "n1"
      = (.ok (), some [⟨"t1", "B", "x", "", "medium", false, "c0", "n1"⟩]) ∧
    ("B" : String) ≠ "A" := by
  exact ⟨by decide, by decide⟩

/-- C4 amended: a successful update preserves the `id` and `userId` of every
record whenever the patch contains neither an `id` nor a `userId` key — as is
the case for every patch the HTTP layer builds; a patch carrying those keys
overwrites the fields. -/
theorem update_preserves_ids (tasks tasks' : List Task) (tid uid now : String)
    (data : TaskPatch) (saveOk : Bool)
    (hid : data.id = none) (huid : data.userId = none)
    (h : updateTask (some tasks) saveOk tid uid data now = (.ok (), some tasks')) :
    tasks'.map (fun t => (t.id, t.userId)) = tasks.map (fun t => (t.id, t.userId)) := by
  simp only [updateTask, getTasks] at h
  cases hrec : updateInList tasks tid uid data now with
  | none => rw [hrec] at h; simp at h
  | some l' =>
    rw [hrec] at h
    cases saveOk with
    | false => simp at h
    | true =>
      simp only [if_true, Prod.mk.injEq, Option.some.injEq] at h
      obtain ⟨pre, t, suf, hsplit, hpre, ht, hres⟩ := updateInList_eq_some hrec
      subst hsplit
      rw [← h.2, hres]
      simp [applyPatch, hid, huid]

theorem update_preserves_ids_witness :
    [(⟨"t1", "A", "y", "", "medium", false, "c0", "n1"⟩ : Task)].map (fun t => (t.id, t.userId))
      = [(⟨"t1", "A", "x", "", "medium", false, "c0", "c0"⟩ : Task)].map
          (fun t => (t.id, t.userId)) :=
  update_preserves_ids [⟨"t1", "A", "x", "", "medium", false, "c0", "c0"⟩]
    [⟨"t1", "A", "y", "", "medium", false, "c0", "n1"⟩] "t1" "A" "n1"
    { id := none, userId := none, title := some "y", description := none,
      priority := none, completed := none, createdAt := none, updatedAt := none }
    true rfl rfl (by decide)

theorem auth_pred_iff (hashPw : String → String) (identifier pw : String) (u : User) :
    ((u.username == identifier || u.email == identifier) &&
      verifyPassword hashPw pw u.password) = true ↔
    ((u.username = identifier ∨ u.email = identifier) ∧ hashPw pw = u.password) := by
  simp [verifyPassword]

/-- C5: authentication succeeds exactly when the identifier equals a stored
username or email and the password digest matches; otherwise it fails with
the unauthorized message; a successful result is the redacted view built
only from id, username and email; and the record `createUser` stores holds
the digest `hashPw pw` in its password field, never the plaintext. -/
theorem authenticate_spec (hashPw : String → String) (users : List User)
    (identifier pw : String) (saveOk : Bool) (username email newId now : String) :
    ((∃ u ∈ users, (u.username = identifier ∨ u.email = identifier) ∧ hashPw pw = u.password) →
      ∃ view, authenticateUser hashPw (some users) identifier pw = .ok view) ∧
    ((∀ u ∈ users, ¬((u.username = identifier ∨ u.email = identifier) ∧ hashPw pw = u.password)) →
      authenticateUser hashPw (some users) identifier pw = .err "Usuário ou senha incorretos") ∧
    (∀ view, authenticateUser hashPw (some users) identifier pw = .ok view →
      ∃ u ∈ users, (u.username = identifier ∨ u.email = identifier) ∧ hashPw pw = u.password ∧
        view = { id := u.id, username := u.username, email := u.email }) ∧
    (∀ uid d', createUser hashPw (some users) saveOk username email pw newId now = (.ok uid, d') →
      d' = some (users ++
        [{ id := newId, username := username, email := email,
           password := hashPw pw, createdAt := now }])) := by
  refine ⟨?_, ?_, ?_, ?_⟩
  · intro hex
    obtain ⟨u, hu, hcond⟩ := hex
    have hsome : ((getUsers (some users)).find? (fun user =>
        (user.username == identifier || user.email == identifier) &&
        verifyPassword hashPw pw user.password)).isSome := by
      rw [List.find?_isSome]
      exact ⟨u, hu, (auth_pred_iff hashPw identifier pw u).mpr hcond⟩
    simp only [authenticateUser]
    cases hfind : (getUsers (some users)).find? (fun user =>
        (user.username == identifier || user.email == identifier) &&
        verifyPassword hashPw pw user.password) with
    | none => rw [hfind] at hsome; simp at hsome
    | some w => exact ⟨_, rfl⟩
  · intro hall
    have hnone : (getUsers (some users)).find? (fun user =>
        (user.username == identifier || user.email == identifier) &&
        verifyPassword hashPw pw user.password) = none := by
      rw [List.find?_eq_none]
      intro u hu hp
      exact hall u hu ((auth_pred_iff hashPw identifier pw u).mp hp)
    simp only [authenticateUser]
    rw [hnone]
  · intro view hview
    simp only [authenticateUser] at hview
    cases hfind : (getUsers (some users)).find? (fun user =>
        (user.username == identifier || user.email == identifier) &&
        verifyPassword hashPw pw user.password) with
    | none => rw [hfind] at hview; simp at hview
    | some u =>
      rw [hfind] at hview
      simp only [DbResult.ok.injEq] at hview
      have hmem : u ∈ users := List.mem_of_find?_eq_some hfind
      have hp := List.find?_some hfind
      have hPQ := (auth_pred_iff hashPw identifier pw u).mp hp
      exact ⟨u, hmem, hPQ.1, hPQ.2, hview.symm⟩
  · intro uid d' hcall
    exact (createUser_ok_inv hcall).2.2.2

theorem authenticate_spec_witness :
    ∃ view, authenticateUser (fun s => String.append "H" s)
        (some [(⟨"id1", "alice", "a@x.com", "Hpw1", "t0"⟩ : User)]) "alice" "pw1"
      = .ok view :=
  (authenticate_spec (fun s => String.append "H" s)
      [⟨"id1", "alice", "a@x.com", "Hpw1", "t0"⟩] "alice" "pw1" true "b" "b@x" "id2" "t1").1
    ⟨⟨"id1", "alice", "a@x.com", "Hpw1", "t0"⟩, by decide, Or.inl rfl, by decide⟩

/-- C10: every successful mutation touches at most one record: `createTask`
appends exactly one new record leaving all existing records unchanged and
in order; a successful `updateTask` or `toggleTaskCompletion` rewrites
exactly the first record matching both taskId and userId, and `deleteTask`
removes exactly that record; the prefix and suffix around it — including
every task of any other user — are byte-for-byte unchanged and keep their
relative order. -/
theorem mutation_frame (tasks : List Task) (saveOk : Bool) (userId title : String)
    (descr prio : Option String) (newId now tid uid : String) (data : TaskPatch) :
    ((createTask (some tasks) true userId title descr prio newId now).2
      = some (tasks ++
          [{ id := newId, userId := userId, title := title,
             description := descr.getD "", priority := prio.getD "medium",
             completed := false, createdAt := now, updatedAt := now }])) ∧
    (∀ tasks', updateTask (some tasks) saveOk tid uid data now = (.ok (), some tasks') →
      ∃ pre t suf, tasks = pre ++ t :: suf ∧
        (∀ x ∈ pre, (x.id == tid && x.userId == uid) = false) ∧
        (t.id == tid && t.userId == uid) = true ∧
        tasks' = pre ++ applyPatch t data now :: suf) ∧
    (∀ tasks', deleteTask (some tasks) saveOk tid uid = (.ok (), some tasks') →
      ∃ pre t suf, tasks = pre ++ t :: suf ∧
        (∀ x ∈ pre, (x.id == tid && x.userId == uid) = false) ∧
        (t.id == tid && t.userId == uid) = true ∧
        tasks' = pre ++ suf) ∧
    (∀ c tasks', toggleTaskCompletion (some tasks) saveOk tid uid now = (.ok c, some tasks') →
      ∃ pre t suf, tasks = pre ++ t :: suf ∧
        (∀ x ∈ pre, (x.id == tid && x.userId == uid) = false) ∧
        (t.id == tid && t.userId == uid) = true ∧
        c = !t.completed ∧
        tasks' = pre ++ { t with completed := !t.completed, updatedAt := now } :: suf) := by
  refine ⟨rfl, ?_, ?_, ?_⟩
  · intro tasks' h
    simp only [updateTask, getTasks] at h
    cases hrec : updateInList tasks tid uid data now with
    | none => rw [hrec] at h; simp at h
    | some l' =>
      rw [hrec] at h
      cases saveOk with
      | false => simp at h
      | true =>
        simp only [if_true, Prod.mk.injEq, Option.some.injEq] at h
        exact h.2 ▸ updateInList_eq_some hrec
  · intro tasks' h
    simp only [deleteTask, getTasks] at h
    cases hrec : deleteInList tasks tid uid with
    | none => rw [hrec] at h; simp at h
    | some l' =>
      rw [hrec] at h
      cases saveOk with
      | false => simp at h
      | true =>
        simp only [if_true, Prod.mk.injEq, Option.some.injEq] at h
        exact h.2 ▸ deleteInList_eq_some hrec
  · intro c tasks' h
    simp only [toggleTaskCompletion, getTasks] at h
    cases hrec : toggleInList tasks tid uid now with
    | none => rw [hrec] at h; simp at h
    | some p =>
      rw [hrec] at h
      cases p with
      | mk c0 l' =>
        cases saveOk with
        | false => simp at h
        | true =>
          simp only [if_true, Prod.mk.injEq, Option.some.injEq, DbResult.ok.injEq] at h
          obtain ⟨h1, h2⟩ := h
          subst h1
          exact h2 ▸ toggleInList_eq_some hrec

theorem mutation_frame_witness :
    ∃ pre t suf,
      [(⟨"t1", "A", "x", "", "medium", false, "c0", "c0"⟩ : Task)] = pre ++ t :: suf ∧
      (∀ x ∈ pre, (x.id == "t1" && x.userId == "A") = false) ∧
      (t.id == "t1" && t.userId == "A") = true ∧
      ([] : List Task) = pre ++ suf :=
  (mutation_frame [⟨"t1", "A", "x", "", "medium", false, "c0", "c0"⟩] true "u" "ti"
      none none "id2" "n0" "t1" "A" TaskPatch.empty).2.2.1 [] (by decide)

end TaskSystem
